import Mathlib

/-!
Verification of the key-diagnostics and battery-history telemetry core
(`src/studio/custom_handler.c`, `src/battery_history.c`) against its
natural-language specification.

The C code is shallowly embedded: the fixed-size C arrays become Lean lists
whose length plays the role of the compile-time array size, `uint32_t`
counters become `Nat` reduced mod `2 ^ 32` at every increment, `int64_t`
timestamps become `Int`, and the build-time `CONFIG_*` constants become
explicit parameters (or state fields).  Locks are elided: every operation is
a pure function from state to state, matching the atomic critical sections
of the source.
-/

set_option maxHeartbeats 1000000

/-- Modulus of the `uint32_t` counters of `struct key_diagnostics_stats`. -/
def UINT32_MOD : Nat := 2 ^ 32

/-- Per-key diagnostics counters: `struct key_diagnostics_stats` in
`src/studio/custom_handler.c`.  Zero-initialised (C static storage). -/
structure key_diagnostics_stats where
  press_count : Nat
  release_count : Nat
  chatter_count : Nat
  last_change_ms : Int
  last_state : Bool
deriving Repr, DecidableEq, Inhabited

/-- Payload of a `zmk_position_state_changed` event (ZMK event manager). -/
structure zmk_position_state_changed where
  position : Nat
  state : Bool
  timestamp : Int
deriving Repr, DecidableEq

/-- Result of a ZMK event listener (`ZMK_EV_EVENT_BUBBLE` etc.). -/
inductive zmk_ev_result where
  | bubble
  | handled
  | captured
deriving Repr, DecidableEq

/-- `key_diagnostics_listener` (custom_handler.c lines 341-373).  The event
argument is `none` when `as_zmk_position_state_changed` returns NULL (the
event is not a position-state-changed event).  The `key_stats` list stands
for the `key_stats[ZMK_KEYMAP_LEN]` array, so `key_stats.length` plays
`ZMK_KEYMAP_LEN`.  Returns the updated array and the listener result. -/
def key_diagnostics_listener (chatter_window_ms : Nat)
    (key_stats : List key_diagnostics_stats)
    (eh : Option zmk_position_state_changed) :
    List key_diagnostics_stats × zmk_ev_result :=
  match eh with
  | none => (key_stats, .bubble)
  | some ev =>
    if ev.position ≥ key_stats.length then (key_stats, .bubble)
    else
      let stats := key_stats.getD ev.position default
      let stats :=
        if ev.state then
          { stats with press_count := (stats.press_count + 1) % UINT32_MOD }
        else
          { stats with release_count := (stats.release_count + 1) % UINT32_MOD }
      let stats :=
        if stats.last_change_ms > (0 : Int) ∧ 0 ≤ ev.timestamp - stats.last_change_ms ∧
            ev.timestamp - stats.last_change_ms ≤ (chatter_window_ms : Int) then
          { stats with chatter_count := (stats.chatter_count + 1) % UINT32_MOD }
        else stats
      let stats := { stats with last_change_ms := ev.timestamp, last_state := ev.state }
      (key_stats.set ev.position stats, .bubble)

/-- `key_diagnostics_reset_stats` (custom_handler.c lines 94-98):
`memset(key_stats, 0, sizeof(key_stats))` under the lock. -/
def key_diagnostics_reset_stats (key_stats : List key_diagnostics_stats) :
    List key_diagnostics_stats :=
  List.replicate key_stats.length default

/-- One battery sample: `struct zmk_battery_history_sample`. -/
structure zmk_battery_history_sample where
  timestamp_seconds : Nat
  level_percent : Nat
deriving Repr, DecidableEq, Inhabited

/-- The static state of `src/battery_history.c`: the
`battery_history[CONFIG_ZMK_BATTERY_HISTORY_MAX_ENTRIES]` array together
with `battery_history_count` and `battery_history_head`.  The capacity
macro becomes a state field so that one Lean state carries its own
configuration. -/
structure battery_history_state where
  CONFIG_ZMK_BATTERY_HISTORY_MAX_ENTRIES : Nat
  battery_history : List zmk_battery_history_sample
  battery_history_count : Nat
  battery_history_head : Nat
deriving Repr, DecidableEq

/-- State right after `zmk_battery_history_init`: zeroed static storage. -/
def battery_history_init (cap : Nat) : battery_history_state :=
  { CONFIG_ZMK_BATTERY_HISTORY_MAX_ENTRIES := cap
    battery_history := List.replicate cap default
    battery_history_count := 0
    battery_history_head := 0 }

/-- `battery_history_record_sample` (battery_history.c lines 27-41).  The
sample (timestamp comes from `k_uptime_get`, external) is an argument. -/
def battery_history_record_sample (st : battery_history_state)
    (sample : zmk_battery_history_sample) : battery_history_state :=
  let cap := st.CONFIG_ZMK_BATTERY_HISTORY_MAX_ENTRIES
  { st with
    battery_history := st.battery_history.set st.battery_history_head sample
    battery_history_head := (st.battery_history_head + 1) % cap
    battery_history_count :=
      if st.battery_history_count < cap then st.battery_history_count + 1
      else st.battery_history_count }

/-- `zmk_battery_history_get_samples` (battery_history.c lines 52-75).  The
C function copies into a caller buffer and returns the count; the model
returns the copied list (the NULL-buffer guard disappears: a Lean caller
always has a buffer). -/
def zmk_battery_history_get_samples (st : battery_history_state)
    (max_entries : Nat) : List zmk_battery_history_sample :=
  if max_entries = 0 then []
  else
    let cap := st.CONFIG_ZMK_BATTERY_HISTORY_MAX_ENTRIES
    let total_entries := st.battery_history_count
    let available := min total_entries max_entries
    let skip := total_entries - available
    let start_index := (st.battery_history_head + cap - total_entries + skip) % cap
    (List.range available).map fun i =>
      st.battery_history.getD ((start_index + i) % cap) default

/-- `zmk_battery_history_get_total_entries` (battery_history.c lines 77-82). -/
def zmk_battery_history_get_total_entries (st : battery_history_state) : Nat :=
  st.battery_history_count

/-- `zmk_battery_history_get_capacity` (battery_history.c lines 84-86). -/
def zmk_battery_history_get_capacity (st : battery_history_state) : Nat :=
  st.CONFIG_ZMK_BATTERY_HISTORY_MAX_ENTRIES

/-- `zmk_battery_history_clear` (battery_history.c lines 92-97): zeroes the
count and head, leaving the sample array untouched. -/
def zmk_battery_history_clear (st : battery_history_state) :
    battery_history_state :=
  { st with battery_history_count := 0, battery_history_head := 0 }

/-- The ring-buffer structural invariant: head inside the array, count at
most the capacity, backing array exactly the configured size. -/
def battery_history_inv (st : battery_history_state) : Prop :=
  st.battery_history_head < st.CONFIG_ZMK_BATTERY_HISTORY_MAX_ENTRIES ∧
  st.battery_history_count ≤ st.CONFIG_ZMK_BATTERY_HISTORY_MAX_ENTRIES ∧
  st.battery_history.length = st.CONFIG_ZMK_BATTERY_HISTORY_MAX_ENTRIES

instance (st : battery_history_state) : Decidable (battery_history_inv st) := by
  unfold battery_history_inv; infer_instance

/-- Abstraction of the ring buffer: the stored samples, oldest first.
Element `i` (for `i < count`) sits at array index
`(head + cap - count + i) % cap`. -/
def storedSamples (st : battery_history_state) : List zmk_battery_history_sample :=
  let cap := st.CONFIG_ZMK_BATTERY_HISTORY_MAX_ENTRIES
  (List.range st.battery_history_count).map fun i =>
    st.battery_history.getD
      ((st.battery_history_head + cap - st.battery_history_count + i) % cap) default

/-- Iterated `battery_history_record_sample`: the effect of the periodic
timer callback delivering a whole list of samples in order. -/
def battery_history_record_all (st : battery_history_state)
    (samples : List zmk_battery_history_sample) : battery_history_state :=
  samples.foldl battery_history_record_sample st

/-- A physical layout as seen through the external collaborators
(`zmk_physical_layouts_get_list`, `zmk_matrix_transform_row_column_to_position`).
`matrix_transform` is the layout's opaque matrix-transform function; it
returns a negative value when the (row, column) pair maps to no position. -/
structure zmk_physical_layout where
  display_name : String
  keys_len : Nat
  matrix_transform : Nat → Nat → Int

/-- `struct key_gpio_mapping` (custom_handler.c lines 52-56); the default
value is the zeroed struct produced by `memset`. -/
structure key_gpio_mapping where
  row : Nat
  column : Nat
  valid : Bool
deriving Repr, DecidableEq, Inhabited

/-- Compile-time configuration of the key-diagnostics subsystem: the
charlieplex kscan detection, `ARRAY_SIZE(charlieplex_gpios)`,
`ZMK_KEYMAP_LEN`, the chatter window, and the two fixed proto capacities
`ARRAY_SIZE(report->keys)` and `ARRAY_SIZE(report->physical_keys)`. -/
structure key_diagnostics_config where
  charlieplex : Bool
  gpio_count : Nat
  ZMK_KEYMAP_LEN : Nat
  CONFIG_ZMK_KEY_DIAGNOSTICS_CHATTER_WINDOW_MS : Nat
  report_keys_capacity : Nat
  physical_keys_capacity : Nat

/-- The (row, column) iteration order of the two nested loops of
`key_diagnostics_build_gpio_mapping` (custom_handler.c lines 141-142). -/
def charlieplexRowColumnPairs (gpio_count : Nat) : List (Nat × Nat) :=
  (List.range gpio_count).flatMap fun row =>
    (List.range gpio_count).map fun column => (row, column)

/-- Body of the double loop of `key_diagnostics_build_gpio_mapping`
(custom_handler.c lines 141-158): skip the diagonal, apply the layout's
matrix transform to the pair, skip positions outside `[0, ZMK_KEYMAP_LEN)`,
and record the pair at the resulting position otherwise. -/
def key_diagnostics_build_gpio_mapping_step (layout : zmk_physical_layout)
    (ZMK_KEYMAP_LEN : Nat) (key_mappings : List key_gpio_mapping)
    (rc : Nat × Nat) : List key_gpio_mapping :=
  if rc.1 = rc.2 then key_mappings
  else
    let position := layout.matrix_transform rc.1 rc.2
    if position < 0 ∨ (ZMK_KEYMAP_LEN : Int) ≤ position then key_mappings
    else key_mappings.set position.toNat
      { row := rc.1, column := rc.2, valid := true }

/-- `key_diagnostics_build_gpio_mapping` (custom_handler.c lines 130-161):
zero the mapping array, then, when the kscan is charlieplex and a layout is
cached, scan every (row, column) pair with the loop body above. -/
def key_diagnostics_build_gpio_mapping (charlieplex : Bool)
    (cached_layout : Option zmk_physical_layout)
    (gpio_count ZMK_KEYMAP_LEN : Nat) : List key_gpio_mapping :=
  let init := List.replicate ZMK_KEYMAP_LEN default
  if charlieplex then
    match cached_layout with
    | none => init
    | some layout =>
      (charlieplexRowColumnPairs gpio_count).foldl
        (key_diagnostics_build_gpio_mapping_step layout ZMK_KEYMAP_LEN) init
  else init

/-- Soundness of one recorded GPIO-mapping entry for position `p`: when
the entry is valid it names a distinct (drive, sense) pair inside the line
set (of size `n`) whose matrix transform is exactly `p`. -/
def gpio_mapping_sound (layout : zmk_physical_layout) (n p : Nat)
    (m : key_gpio_mapping) : Prop :=
  m.valid = true →
    m.row ≠ m.column ∧ m.row < n ∧ m.column < n ∧
    layout.matrix_transform m.row m.column = (p : Int)

/-- `enum zmk_key_diagnostics_KscanType`. -/
inductive zmk_key_diagnostics_KscanType where
  | KSCAN_TYPE_UNSPECIFIED
  | KSCAN_TYPE_CHARLIEPLEX
  | KSCAN_TYPE_UNSUPPORTED
deriving Repr, DecidableEq

/-- `key_diagnostics_get_kscan_type` (custom_handler.c lines 122-128). -/
def key_diagnostics_get_kscan_type (cfg : key_diagnostics_config) :
    zmk_key_diagnostics_KscanType :=
  if cfg.charlieplex then .KSCAN_TYPE_CHARLIEPLEX else .KSCAN_TYPE_UNSUPPORTED

/-- One `zmk_key_diagnostics_KeyDiagnostics` proto entry.  The
`drive_gpio`/`sense_gpio` pin descriptions are copied verbatim from the
device tree (external data) and are not modelled. -/
structure zmk_key_diagnostics_KeyDiagnostics where
  position : Nat
  press_count : Nat
  release_count : Nat
  chatter_count : Nat
  is_pressed : Bool
  last_change_ms : Int
  row : Nat
  column : Nat
  has_gpio_mapping : Bool
deriving Repr, DecidableEq, Inhabited

/-- `key_diagnostics_apply_stats` (custom_handler.c lines 174-200).  The
entry starts zero-initialised (`..._init_zero` in the caller), the counter
fields are copied, and the GPIO mapping fields are set only when the
position is inside the keymap and the cached mapping is valid. -/
def key_diagnostics_apply_stats (key_mappings : List key_gpio_mapping)
    (ZMK_KEYMAP_LEN : Nat) (position : Nat) (stats : key_diagnostics_stats) :
    zmk_key_diagnostics_KeyDiagnostics :=
  let entry : zmk_key_diagnostics_KeyDiagnostics :=
    { position := position
      press_count := stats.press_count
      release_count := stats.release_count
      chatter_count := stats.chatter_count
      is_pressed := stats.last_state
      last_change_ms := stats.last_change_ms
      row := 0
      column := 0
      has_gpio_mapping := false }
  if position ≥ ZMK_KEYMAP_LEN then entry
  else
    let m := key_mappings.getD position default
    if m.valid then
      { entry with row := m.row, column := m.column, has_gpio_mapping := true }
    else entry

/-- `zmk_key_diagnostics_DiagnosticsReport`.  The geometry records of
`physical_keys` are copied field-for-field from the (external) layout and
carry no logic; only the truncated count is modelled. -/
structure zmk_key_diagnostics_DiagnosticsReport where
  layout_name : String
  layout_index : Nat
  kscan_type : zmk_key_diagnostics_KscanType
  chatter_window_ms : Nat
  physical_keys_count : Nat
  keys : List zmk_key_diagnostics_KeyDiagnostics

/-- `key_diagnostics_refresh_layout_cache` (custom_handler.c lines
100-120): pick the selected layout, falling back to index 0 when the
selected index is out of range, and to no layout when the list is empty.
Returns `(cached_layout, cached_layout_index)`. -/
def key_diagnostics_refresh_layout_cache (layouts : List zmk_physical_layout)
    (selected_index : Int) : Option zmk_physical_layout × Nat :=
  if layouts.length = 0 then (none, 0)
  else
    let idx :=
      if selected_index < 0 ∨ (layouts.length : Int) ≤ selected_index then 0
      else selected_index.toNat
    (layouts[idx]?, idx)

/-- `key_diagnostics_fill_report` (custom_handler.c lines 233-261):
refresh the layout cache, rebuild the GPIO mapping, fill the header
fields, truncate the physical-keys copy to its capacity, and emit one
merged diagnostics entry per position up to
`min(layout valid ? keys_len : ZMK_KEYMAP_LEN, ARRAY_SIZE(report->keys))`. -/
def key_diagnostics_fill_report (cfg : key_diagnostics_config)
    (layouts : List zmk_physical_layout) (selected_index : Int)
    (key_stats : List key_diagnostics_stats) :
    zmk_key_diagnostics_DiagnosticsReport :=
  let cache := key_diagnostics_refresh_layout_cache layouts selected_index
  let cached_layout := cache.1
  let key_mappings := key_diagnostics_build_gpio_mapping cfg.charlieplex
      cached_layout cfg.gpio_count cfg.ZMK_KEYMAP_LEN
  let layout_name :=
    match cached_layout with
    | some l => l.display_name
    | none => ""
  let physical_keys_count :=
    match cached_layout with
    | some l => min l.keys_len cfg.physical_keys_capacity
    | none => 0
  let key_count :=
    match cached_layout with
    | some l => l.keys_len
    | none => cfg.ZMK_KEYMAP_LEN
  let key_count := min key_count cfg.report_keys_capacity
  { layout_name := layout_name
    layout_index := cache.2
    kscan_type := key_diagnostics_get_kscan_type cfg
    chatter_window_ms := cfg.CONFIG_ZMK_KEY_DIAGNOSTICS_CHATTER_WINDOW_MS
    physical_keys_count := physical_keys_count
    keys := (List.range key_count).map fun i =>
      key_diagnostics_apply_stats key_mappings cfg.ZMK_KEYMAP_LEN i
        (key_stats.getD i default) }

/-- The decoded `zmk_key_diagnostics_Request` oneof.  `unknown` stands for
any `which_request_type` tag the dispatcher's switch does not handle. -/
inductive zmk_key_diagnostics_Request where
  | get_report (reset_after : Bool)
  | reset
  | unknown (tag : Nat)
deriving Repr, DecidableEq

/-- The `zmk_key_diagnostics_Response` oneof. -/
inductive zmk_key_diagnostics_Response where
  | error (message : String)
  | diagnostics (report : zmk_key_diagnostics_DiagnosticsReport)
  | reset (ok : Bool)

/-- `handle_get_report_request` (custom_handler.c lines 311-327): build
the report from the current stats, store it in the response, and only
then, when `reset_after` is set, reset the stats. -/
def handle_get_report_request (cfg : key_diagnostics_config)
    (layouts : List zmk_physical_layout) (selected_index : Int)
    (key_stats : List key_diagnostics_stats) (reset_after : Bool) :
    zmk_key_diagnostics_Response × List key_diagnostics_stats :=
  let report := key_diagnostics_fill_report cfg layouts selected_index key_stats
  (.diagnostics report,
    if reset_after then key_diagnostics_reset_stats key_stats else key_stats)

/-- `handle_reset_request` (custom_handler.c lines 329-339). -/
def handle_reset_request (key_stats : List key_diagnostics_stats) :
    zmk_key_diagnostics_Response × List key_diagnostics_stats :=
  (.reset true, key_diagnostics_reset_stats key_stats)

/-- `key_diagnostics_rpc_handle_request` (custom_handler.c lines 267-309).
The nanopb decode of the raw payload is external; its outcome is the
`Option` argument (`none` = `pb_decode` failed).  Returns the response and
the (possibly updated) key-stats state. -/
def key_diagnostics_rpc_handle_request (cfg : key_diagnostics_config)
    (layouts : List zmk_physical_layout) (selected_index : Int)
    (key_stats : List key_diagnostics_stats)
    (raw_request : Option zmk_key_diagnostics_Request) :
    zmk_key_diagnostics_Response × List key_diagnostics_stats :=
  match raw_request with
  | none => (.error "Failed to decode request", key_stats)
  | some req =>
    match req with
    | .get_report reset_after =>
        handle_get_report_request cfg layouts selected_index key_stats reset_after
    | .reset => handle_reset_request key_stats
    | .unknown _ => (.error "Failed to process request", key_stats)

/-- The decoded `zmk_battery_history_Request` oneof; `unknown` stands for
any unhandled `which_request_type` tag. -/
inductive zmk_battery_history_Request where
  | get_history (max_entries : Nat)
  | clear_history
  | unknown (tag : Nat)
deriving Repr, DecidableEq

/-- The `zmk_battery_history_HistoryResponse` proto message. -/
structure zmk_battery_history_HistoryResponse where
  samples : List zmk_battery_history_sample
  capacity : Nat
  total_entries : Nat
  sample_interval_seconds : Nat
deriving Repr, DecidableEq

/-- The `zmk_battery_history_Response` oneof. -/
inductive zmk_battery_history_Response where
  | error (message : String)
  | history (h : zmk_battery_history_HistoryResponse)
  | clear_history (success : Bool)
deriving Repr, DecidableEq

/-- `handle_get_history_request` (custom_handler.c lines 481-509): a
requested `max_entries` of 0 means "everything" (it becomes the capacity),
otherwise it is clamped to the capacity; the samples and the buffer
metadata are copied into the response.  Read-only, so only the response is
returned. -/
def handle_get_history_request
    (CONFIG_ZMK_BATTERY_HISTORY_SAMPLE_INTERVAL_SECONDS : Nat)
    (st : battery_history_state) (req_max_entries : Nat) :
    zmk_battery_history_Response :=
  let capacity := zmk_battery_history_get_capacity st
  let max_entries :=
    if req_max_entries = 0 then capacity else min req_max_entries capacity
  let samples := zmk_battery_history_get_samples st max_entries
  .history
    { samples := samples
      capacity := capacity
      total_entries := zmk_battery_history_get_total_entries st
      sample_interval_seconds :=
        CONFIG_ZMK_BATTERY_HISTORY_SAMPLE_INTERVAL_SECONDS }

/-- `handle_clear_history_request` (custom_handler.c lines 511-525). -/
def handle_clear_history_request (st : battery_history_state) :
    zmk_battery_history_Response × battery_history_state :=
  (.clear_history true, zmk_battery_history_clear st)

/-- `battery_history_rpc_handle_request` (custom_handler.c lines 431-476),
with the nanopb decode outcome as the `Option` argument (`none` =
`pb_decode` failed). -/
def battery_history_rpc_handle_request (sample_interval_seconds : Nat)
    (st : battery_history_state)
    (raw_request : Option zmk_battery_history_Request) :
    zmk_battery_history_Response × battery_history_state :=
  match raw_request with
  | none => (.error "Failed to decode request", st)
  | some req =>
    match req with
    | .get_history max_entries =>
        (handle_get_history_request sample_interval_seconds st max_entries, st)
    | .clear_history => handle_clear_history_request st
    | .unknown _ => (.error "Failed to process request", st)

theorem getD_set_self {α : Type} {l : List α} {i : Nat} (h : i < l.length)
    (a d : α) : (l.set i a).getD i d = a := by
  rw [List.getD_eq_getElem?_getD, List.getElem?_set_eq_of_lt a h]
  rfl

theorem getD_set_ne {α : Type} {l : List α} {i j : Nat} (h : i ≠ j)
    (a d : α) : (l.set i a).getD j d = l.getD j d := by
  rw [List.getD_eq_getElem?_getD, List.getElem?_set_ne h,
    List.getD_eq_getElem?_getD]

theorem getD_replicate_default {α : Type} (n i : Nat) (d : α) :
    (List.replicate n d).getD i d = d := by
  rw [List.getD_eq_getElem?_getD, List.getElem?_replicate]
  split <;> rfl

theorem succ_mod_uint32_ne (c : Nat) : (c + 1) % UINT32_MOD ≠ c := by
  have h : UINT32_MOD = 4294967296 := by norm_num [UINT32_MOD]
  rw [h]
  omega

/-- C9: every path of `key_diagnostics_listener` — a non
position-state-changed event, an out-of-range position, or a recorded
transition — returns `ZMK_EV_EVENT_BUBBLE`, so the diagnostics subsystem
never consumes or blocks event propagation. -/
theorem key_diagnostics_listener_always_bubbles (chatter_window_ms : Nat)
    (key_stats : List key_diagnostics_stats)
    (eh : Option zmk_position_state_changed) :
    (key_diagnostics_listener chatter_window_ms key_stats eh).2 =
      zmk_ev_result.bubble := by
  cases eh with
  | none => rfl
  | some ev =>
    by_cases h : ev.position ≥ key_stats.length <;>
      simp [key_diagnostics_listener, h]

/-- C8: a transition event whose position is at or beyond the keymap
length is a silent no-op: the key-stats array is returned unchanged (so no
counter, timestamp or last_state of any key moves, and there is no
out-of-bounds access), and the listener still bubbles the event. -/
theorem key_diagnostics_listener_out_of_range_noop (chatter_window_ms : Nat)
    (key_stats : List key_diagnostics_stats) (ev : zmk_position_state_changed)
    (h : ev.position ≥ key_stats.length) :
    key_diagnostics_listener chatter_window_ms key_stats (some ev) =
      (key_stats, zmk_ev_result.bubble) := by
  simp only [key_diagnostics_listener, if_pos h]

theorem key_diagnostics_listener_out_of_range_noop_witness :
    key_diagnostics_listener 50 [default]
        (some { position := 1, state := true, timestamp := 5 }) =
      ([default], zmk_ev_result.bubble) :=
  key_diagnostics_listener_out_of_range_noop 50 [default]
    { position := 1, state := true, timestamp := 5 } (by decide)

/-- C1: for an in-range transition, `chatter_count` is incremented
(mod 2^32) exactly when the stored `last_change_ms` is strictly positive
and the delta `timestamp - last_change_ms` lies in `[0, chatter_window_ms]`
inclusive; the first-ever transition (`last_change_ms = 0`) and a negative
delta leave `chatter_count` unchanged, while `press_count` or
`release_count` (by the event's direction) still updates. -/
theorem key_diagnostics_listener_chatter_window (chatter_window_ms : Nat)
    (key_stats : List key_diagnostics_stats) (ev : zmk_position_state_changed)
    (hpos : ev.position < key_stats.length) :
    (((key_diagnostics_listener chatter_window_ms key_stats (some ev)).1.getD
          ev.position default).chatter_count
        = ((key_stats.getD ev.position default).chatter_count + 1) % UINT32_MOD
      ↔ (key_stats.getD ev.position default).last_change_ms > (0 : Int) ∧
        0 ≤ ev.timestamp - (key_stats.getD ev.position default).last_change_ms ∧
        ev.timestamp - (key_stats.getD ev.position default).last_change_ms
          ≤ (chatter_window_ms : Int)) ∧
    (¬ ((key_stats.getD ev.position default).last_change_ms > (0 : Int) ∧
        0 ≤ ev.timestamp - (key_stats.getD ev.position default).last_change_ms ∧
        ev.timestamp - (key_stats.getD ev.position default).last_change_ms
          ≤ (chatter_window_ms : Int)) →
      ((key_diagnostics_listener chatter_window_ms key_stats (some ev)).1.getD
          ev.position default).chatter_count
        = (key_stats.getD ev.position default).chatter_count) ∧
    ((key_diagnostics_listener chatter_window_ms key_stats (some ev)).1.getD
        ev.position default).press_count
      = (if ev.state
         then ((key_stats.getD ev.position default).press_count + 1) % UINT32_MOD
         else (key_stats.getD ev.position default).press_count) ∧
    ((key_diagnostics_listener chatter_window_ms key_stats (some ev)).1.getD
        ev.position default).release_count
      = (if ev.state
         then (key_stats.getD ev.position default).release_count
         else ((key_stats.getD ev.position default).release_count + 1) % UINT32_MOD) := by
  have hng : ¬ ev.position ≥ key_stats.length := by omega
  simp only [key_diagnostics_listener, if_neg hng]
  rw [getD_set_self hpos]
  cases h : ev.state <;>
    simp only [h, Bool.false_eq_true, if_false, if_true] <;>
    split <;>
    rename_i hcond <;>
    first
      | exact ⟨iff_of_true rfl hcond, fun hn => absurd hcond hn, rfl, rfl⟩
      | exact ⟨iff_of_false (Ne.symm (succ_mod_uint32_ne _)) hcond,
          fun _ => rfl, rfl, rfl⟩

theorem key_diagnostics_listener_chatter_window_witness :
    ((key_diagnostics_listener 50
          [{ press_count := 2, release_count := 1, chatter_count := 0,
             last_change_ms := 100, last_state := true }]
          (some { position := 0, state := false, timestamp := 150 })).1.getD
        0 default).chatter_count
      = ((([{ press_count := 2, release_count := 1, chatter_count := 0,
              last_change_ms := 100, last_state := true }] :
            List key_diagnostics_stats).getD 0 default).chatter_count + 1)
          % UINT32_MOD :=
  (key_diagnostics_listener_chatter_window 50
    [{ press_count := 2, release_count := 1, chatter_count := 0,
       last_change_ms := 100, last_state := true }]
    { position := 0, state := false, timestamp := 150 } (by decide)).1.mpr
    (by decide)

theorem add_mod_ne_self (cap a d : Nat) (ha : a < cap) (hd0 : 0 < d)
    (hdc : d < cap) : (a + d) % cap ≠ a := by
  rcases Nat.lt_or_ge (a + d) cap with hlt | hge
  · rw [Nat.mod_eq_of_lt hlt]
    omega
  · have h2 : a + d - cap < cap := by omega
    rw [Nat.mod_eq_sub_mod hge, Nat.mod_eq_of_lt h2]
    omega

/-- C10: the ring-buffer invariant (head inside the array, count bounded
by the capacity, array of the configured size) holds for the initial
state and is preserved by push and clear; a GetHistory read leaves the
state untouched; push advances the head modulo the capacity and
increments the count only while below capacity; clear zeroes head and
count. -/
theorem battery_history_inv_preserved (cap : Nat) (st : battery_history_state)
    (sample : zmk_battery_history_sample) (interval max_entries : Nat)
    (hcap : 0 < cap) (hinv : battery_history_inv st) :
    battery_history_inv (battery_history_init cap) ∧
    battery_history_inv (battery_history_record_sample st sample) ∧
    battery_history_inv (zmk_battery_history_clear st) ∧
    (battery_history_rpc_handle_request interval st
        (some (zmk_battery_history_Request.get_history max_entries))).2 = st ∧
    (battery_history_record_sample st sample).battery_history_head
      = (st.battery_history_head + 1)
          % st.CONFIG_ZMK_BATTERY_HISTORY_MAX_ENTRIES ∧
    (battery_history_record_sample st sample).battery_history_count
      = (if st.battery_history_count
            < st.CONFIG_ZMK_BATTERY_HISTORY_MAX_ENTRIES
         then st.battery_history_count + 1 else st.battery_history_count) ∧
    (zmk_battery_history_clear st).battery_history_head = 0 ∧
    (zmk_battery_history_clear st).battery_history_count = 0 := by
  obtain ⟨hhead, hcount, hlen⟩ := hinv
  have hcappos : 0 < st.CONFIG_ZMK_BATTERY_HISTORY_MAX_ENTRIES := by omega
  refine ⟨⟨hcap, Nat.zero_le _, by simp [battery_history_init]⟩,
    ⟨Nat.mod_lt _ hcappos, ?_, ?_⟩, ⟨hcappos, Nat.zero_le _, hlen⟩,
    rfl, rfl, rfl, rfl, rfl⟩
  · simp only [battery_history_record_sample]
    split <;> omega
  · simp [battery_history_record_sample, hlen]

theorem battery_history_inv_preserved_witness :
    battery_history_inv (battery_history_record_sample (battery_history_init 2)
      { timestamp_seconds := 10, level_percent := 80 }) :=
  (battery_history_inv_preserved 2 (battery_history_init 2)
    { timestamp_seconds := 10, level_percent := 80 } 60 0 (by decide)
    (by decide)).2.1


theorem storedSamples_length (st : battery_history_state) :
    (storedSamples st).length = st.battery_history_count := by
  simp [storedSamples]

theorem storedSamples_init (cap : Nat) :
    storedSamples (battery_history_init cap) = [] := rfl

theorem get_samples_eq_stored_drop (st : battery_history_state) (m : Nat)
    (hm : m ≠ 0) :
    zmk_battery_history_get_samples st m =
      (storedSamples st).drop
        (st.battery_history_count - min st.battery_history_count m) := by
  simp only [zmk_battery_history_get_samples, storedSamples, if_neg hm]
  have hsplit : List.range st.battery_history_count
      = List.range (st.battery_history_count - min st.battery_history_count m)
        ++ (List.range (min st.battery_history_count m)).map
            ((st.battery_history_count - min st.battery_history_count m) + ·) := by
    rw [← List.range_add]
    congr 1
    omega
  rw [hsplit, List.map_append, List.drop_left' (by simp), List.map_map]
  apply List.map_congr_left
  intro i _
  simp only [Function.comp_apply]
  rw [Nat.mod_add_mod]
  congr 2
  omega

theorem ring_push_aux (cap hd c : Nat) (d : List zmk_battery_history_sample)
    (s : zmk_battery_history_sample) (hh : hd < cap) (hc : c ≤ cap)
    (hlen : d.length = cap) :
    (List.range (if c < cap then c + 1 else c)).map
        (fun i => (d.set hd s).getD
          (((hd + 1) % cap + cap - (if c < cap then c + 1 else c) + i) % cap)
          default)
      = (if c < cap
         then ((List.range c).map
            (fun i => d.getD ((hd + cap - c + i) % cap) default)) ++ [s]
         else (((List.range c).map
            (fun i => d.getD ((hd + cap - c + i) % cap) default)).drop 1)
          ++ [s]) := by
  by_cases hfull : c < cap
  · simp only [if_pos hfull]
    rw [List.range_succ, List.map_append]
    simp only [List.map_cons, List.map_nil]
    congr 1
    · apply List.map_congr_left
      intro i hi
      have hi' : i < c := List.mem_range.mp hi
      have e1 : (hd + 1) % cap + cap - (c + 1) + i
          = (hd + 1) % cap + (cap - (c + 1) + i) := by omega
      rw [e1, Nat.mod_add_mod]
      have e2 : hd + 1 + (cap - (c + 1) + i) = hd + (cap - c + i) := by omega
      rw [e2]
      have e3 : hd + cap - c + i = hd + (cap - c + i) := by omega
      rw [e3]
      exact getD_set_ne
        (Ne.symm (add_mod_ne_self cap hd (cap - c + i) hh (by omega) (by omega)))
        s default
    · have e4 : (hd + 1) % cap + cap - (c + 1) + c = (hd + 1) % cap + (cap - 1) := by
        omega
      rw [e4, Nat.mod_add_mod]
      have e5 : hd + 1 + (cap - 1) = hd + cap := by omega
      rw [e5, Nat.add_mod_right, Nat.mod_eq_of_lt hh,
        getD_set_self (by omega) s default]
  · simp only [if_neg hfull]
    have hceq : c = cap := by omega
    subst hceq
    have h1 : List.range c = List.range (c - 1) ++ [c - 1] := by
      conv_lhs => rw [show c = (c - 1) + 1 by omega]
      exact List.range_succ _
    have h2 : List.range c = 0 :: (List.range (c - 1)).map Nat.succ := by
      conv_lhs => rw [show c = (c - 1) + 1 by omega]
      exact List.range_succ_eq_map _
    nth_rewrite 1 [h1]
    rw [h2]
    simp only [List.map_append, List.map_cons, List.map_nil, List.drop_one,
      List.tail_cons, List.map_map]
    congr 1
    · apply List.map_congr_left
      intro i hi
      have hi' : i < c - 1 := List.mem_range.mp hi
      have e6 : (hd + 1) % c + c - c + i = (hd + 1) % c + i := by omega
      rw [e6, Nat.mod_add_mod]
      simp only [Function.comp_apply]
      have e7 : hd + c - c + Nat.succ i = hd + (1 + i) := by omega
      have e8 : hd + 1 + i = hd + (1 + i) := by omega
      rw [e7, e8]
      exact getD_set_ne
        (Ne.symm (add_mod_ne_self c hd (1 + i) hh (by omega) (by omega)))
        s default
    · have e9 : (hd + 1) % c + c - c + (c - 1) = (hd + 1) % c + (c - 1) := by
        omega
      rw [e9, Nat.mod_add_mod]
      have e10 : hd + 1 + (c - 1) = hd + c := by omega
      rw [e10, Nat.add_mod_right, Nat.mod_eq_of_lt hh,
        getD_set_self (by omega) s default]

theorem storedSamples_record_sample (st : battery_history_state)
    (s : zmk_battery_history_sample) (hinv : battery_history_inv st) :
    storedSamples (battery_history_record_sample st s) =
      if st.battery_history_count < st.CONFIG_ZMK_BATTERY_HISTORY_MAX_ENTRIES
      then storedSamples st ++ [s]
      else (storedSamples st).drop 1 ++ [s] := by
  obtain ⟨hhead, hcount, hlen⟩ := hinv
  simp only [storedSamples, battery_history_record_sample]
  exact ring_push_aux st.CONFIG_ZMK_BATTERY_HISTORY_MAX_ENTRIES
    st.battery_history_head st.battery_history_count st.battery_history s
    hhead hcount hlen

theorem battery_history_record_all_spec (cap : Nat) (hcap : 0 < cap)
    (l : List zmk_battery_history_sample) :
    battery_history_inv (battery_history_record_all (battery_history_init cap) l) ∧
    (battery_history_record_all
        (battery_history_init cap) l).CONFIG_ZMK_BATTERY_HISTORY_MAX_ENTRIES = cap ∧
    (battery_history_record_all
        (battery_history_init cap) l).battery_history_count = min l.length cap ∧
    storedSamples (battery_history_record_all (battery_history_init cap) l)
      = l.drop (l.length - cap) := by
  induction l using List.reverseRecOn with
  | nil =>
    refine ⟨⟨hcap, Nat.zero_le _,
      by simp [battery_history_record_all, battery_history_init]⟩, rfl, ?_, ?_⟩
    · simp [battery_history_record_all, battery_history_init]
    · simp [battery_history_record_all, storedSamples, battery_history_init]
  | append_singleton l x ih =>
    obtain ⟨ihinv, ihcap, ihcount, ihstored⟩ := ih
    have hfold : battery_history_record_all (battery_history_init cap) (l ++ [x])
        = battery_history_record_sample
            (battery_history_record_all (battery_history_init cap) l) x := by
      simp [battery_history_record_all, List.foldl_append]
    refine ⟨?_, ?_, ?_, ?_⟩
    · rw [hfold]
      exact (battery_history_inv_preserved cap _ x 0 0 hcap ihinv).2.1
    · rw [hfold]
      simpa [battery_history_record_sample] using ihcap
    · rw [hfold]
      simp only [battery_history_record_sample]
      rw [ihcount, ihcap] at *
      simp only [List.length_append, List.length_cons, List.length_nil]
      split <;> omega
    · rw [hfold, storedSamples_record_sample _ x ihinv, ihstored, ihcount, ihcap]
      split
      · have h0 : l.length - cap = 0 := by omega
        have h1 : (l ++ [x]).length - cap = 0 := by
          simp only [List.length_append, List.length_cons, List.length_nil]
          omega
        rw [h0, h1, List.drop_zero, List.drop_zero]
      · have hge : cap ≤ l.length := by omega
        have hj : (l ++ [x]).length - cap = (l.length - cap) + 1 := by
          simp only [List.length_append, List.length_cons, List.length_nil]
          omega
        rw [List.drop_drop, hj,
          List.drop_append_of_le_length (by omega : (l.length - cap) + 1 ≤ l.length)]

/-- C3: pushing `cap + k` samples (k ≥ 1) into an initially empty buffer
of capacity `cap` leaves exactly `cap` samples stored; reading `cap`
entries returns the most recent `cap` samples in oldest-first order (the
suffix `l.drop k`); every read returns only samples among those (the `k`
oldest pushed samples are no longer retrievable); and once full each new
push overwrites the oldest stored entry. -/
theorem battery_ring_overwrites_oldest (cap k : Nat)
    (l : List zmk_battery_history_sample) (hcap : 0 < cap) (hk : 1 ≤ k)
    (hlen : l.length = cap + k) :
    (battery_history_record_all
        (battery_history_init cap) l).battery_history_count = cap ∧
    zmk_battery_history_get_samples
        (battery_history_record_all (battery_history_init cap) l) cap
      = l.drop k ∧
    (∀ m : Nat, List.IsSuffix
        (zmk_battery_history_get_samples
          (battery_history_record_all (battery_history_init cap) l) m)
        (l.drop k)) ∧
    (∀ s : zmk_battery_history_sample,
      storedSamples (battery_history_record_sample
          (battery_history_record_all (battery_history_init cap) l) s)
        = (storedSamples
            (battery_history_record_all (battery_history_init cap) l)).drop 1
          ++ [s]) := by
  obtain ⟨hinv, hcapf, hcount, hstored⟩ := battery_history_record_all_spec cap hcap l
  have hc : (battery_history_record_all
      (battery_history_init cap) l).battery_history_count = cap := by
    rw [hcount, hlen]
    omega
  have hdropk : l.length - cap = k := by omega
  rw [hdropk] at hstored
  have hfull : ∀ m : Nat, m ≠ 0 →
      zmk_battery_history_get_samples
          (battery_history_record_all (battery_history_init cap) l) m
        = (l.drop k).drop (cap - min cap m) := by
    intro m hm
    rw [get_samples_eq_stored_drop _ m hm, hstored, hc]
  refine ⟨hc, ?_, ?_, ?_⟩
  · rw [hfull cap (by omega)]
    simp
  · intro m
    by_cases hm : m = 0
    · subst hm
      simp [zmk_battery_history_get_samples]
    · rw [hfull m hm]
      exact List.drop_suffix _ _
  · intro s
    rw [storedSamples_record_sample _ s hinv, if_neg (by omega)]

theorem battery_ring_overwrites_oldest_witness :
    zmk_battery_history_get_samples
        (battery_history_record_all (battery_history_init 2)
          [{ timestamp_seconds := 10, level_percent := 80 },
           { timestamp_seconds := 20, level_percent := 79 },
           { timestamp_seconds := 30, level_percent := 78 }]) 2
      = [{ timestamp_seconds := 20, level_percent := 79 },
         { timestamp_seconds := 30, level_percent := 78 }] :=
  ((battery_ring_overwrites_oldest 2 1
    [{ timestamp_seconds := 10, level_percent := 80 },
     { timestamp_seconds := 20, level_percent := 79 },
     { timestamp_seconds := 30, level_percent := 78 }]
    (by decide) (by decide) (by decide)).2.1).trans rfl

/-- C4: at the GetHistory handler level, a request for 0 entries and a
request for more than the capacity both return the complete stored
content (together with capacity and total-entry metadata); any non-zero
request returns the most recent `min(max_entries, count)` samples in
oldest-first order (the suffix of the stored content of that length). -/
theorem handle_get_history_request_clamps (interval : Nat)
    (st : battery_history_state) (m : Nat) (hinv : battery_history_inv st) :
    (handle_get_history_request interval st 0
      = .history { samples := storedSamples st
                   capacity := st.CONFIG_ZMK_BATTERY_HISTORY_MAX_ENTRIES
                   total_entries := st.battery_history_count
                   sample_interval_seconds := interval }) ∧
    (st.CONFIG_ZMK_BATTERY_HISTORY_MAX_ENTRIES < m →
      handle_get_history_request interval st m
        = .history { samples := storedSamples st
                     capacity := st.CONFIG_ZMK_BATTERY_HISTORY_MAX_ENTRIES
                     total_entries := st.battery_history_count
                     sample_interval_seconds := interval }) ∧
    (m ≠ 0 →
      handle_get_history_request interval st m
        = .history { samples := (storedSamples st).drop
                       (st.battery_history_count
                         - min st.battery_history_count m)
                     capacity := st.CONFIG_ZMK_BATTERY_HISTORY_MAX_ENTRIES
                     total_entries := st.battery_history_count
                     sample_interval_seconds := interval }) ∧
    (m ≠ 0 →
      (zmk_battery_history_get_samples st m).length
        = min st.battery_history_count m) := by
  obtain ⟨hhead, hcount, hlen⟩ := hinv
  have hcap : 0 < st.CONFIG_ZMK_BATTERY_HISTORY_MAX_ENTRIES := by omega
  have hstored : ∀ M : Nat, M ≠ 0 →
      zmk_battery_history_get_samples st M
        = (storedSamples st).drop
            (st.battery_history_count - min st.battery_history_count M) :=
    fun M hM => get_samples_eq_stored_drop st M hM
  have hfullread : zmk_battery_history_get_samples st
      st.CONFIG_ZMK_BATTERY_HISTORY_MAX_ENTRIES = storedSamples st := by
    rw [hstored _ (by omega),
      show st.battery_history_count
          - min st.battery_history_count
              st.CONFIG_ZMK_BATTERY_HISTORY_MAX_ENTRIES = 0 by omega,
      List.drop_zero]
  refine ⟨?_, ?_, ?_, ?_⟩
  · simp [handle_get_history_request, zmk_battery_history_get_capacity,
      zmk_battery_history_get_total_entries, hfullread]
  · intro hlt
    simp only [handle_get_history_request, zmk_battery_history_get_capacity,
      zmk_battery_history_get_total_entries, if_neg (by omega : ¬ m = 0)]
    rw [Nat.min_eq_right (Nat.le_of_lt hlt), hfullread]
  · intro hm
    simp only [handle_get_history_request, zmk_battery_history_get_capacity,
      zmk_battery_history_get_total_entries, if_neg hm]
    rw [hstored _ (by omega :
        ¬ min m st.CONFIG_ZMK_BATTERY_HISTORY_MAX_ENTRIES = 0)]
    have hmin : st.battery_history_count
        - min st.battery_history_count
            (min m st.CONFIG_ZMK_BATTERY_HISTORY_MAX_ENTRIES)
      = st.battery_history_count - min st.battery_history_count m := by omega
    rw [hmin]
  · intro hm
    rw [hstored m hm, List.length_drop, storedSamples_length]
    omega

theorem handle_get_history_request_clamps_witness :
    handle_get_history_request 60
        (battery_history_record_all (battery_history_init 2)
          [{ timestamp_seconds := 10, level_percent := 80 }]) 5
      = .history { samples := [{ timestamp_seconds := 10, level_percent := 80 }]
                   capacity := 2
                   total_entries := 1
                   sample_interval_seconds := 60 } :=
  (((handle_get_history_request_clamps 60
    (battery_history_record_all (battery_history_init 2)
      [{ timestamp_seconds := 10, level_percent := 80 }]) 5
    (by decide)).2.1) (by decide)).trans (by decide)

theorem key_diagnostics_apply_stats_fields (key_mappings : List key_gpio_mapping)
    (n position : Nat) (stats : key_diagnostics_stats) :
    (key_diagnostics_apply_stats key_mappings n position stats).press_count
        = stats.press_count ∧
    (key_diagnostics_apply_stats key_mappings n position stats).release_count
        = stats.release_count ∧
    (key_diagnostics_apply_stats key_mappings n position stats).chatter_count
        = stats.chatter_count ∧
    (key_diagnostics_apply_stats key_mappings n position stats).is_pressed
        = stats.last_state ∧
    (key_diagnostics_apply_stats key_mappings n position stats).last_change_ms
        = stats.last_change_ms ∧
    (key_diagnostics_apply_stats key_mappings n position stats).position
        = position := by
  unfold key_diagnostics_apply_stats
  split
  · exact ⟨rfl, rfl, rfl, rfl, rfl, rfl⟩
  · dsimp only
    split
    · exact ⟨rfl, rfl, rfl, rfl, rfl, rfl⟩
    · exact ⟨rfl, rfl, rfl, rfl, rfl, rfl⟩

/-- C2: a GetDiagnostics request with `reset_after = true` answers with the
report built from the pre-reset stats (the snapshot is captured first, the
stats are zeroed only afterwards), and a subsequent `reset_after = false`
request on the resulting state — no transition events in between — answers
with all-zero counters (and zero timestamps / released state) for every
reported key, while leaving the state unchanged. -/
theorem handle_get_report_reset_after (cfg : key_diagnostics_config)
    (layouts : List zmk_physical_layout) (selected_index : Int)
    (key_stats : List key_diagnostics_stats) :
    (handle_get_report_request cfg layouts selected_index key_stats true).1
      = zmk_key_diagnostics_Response.diagnostics
          (key_diagnostics_fill_report cfg layouts selected_index key_stats) ∧
    (handle_get_report_request cfg layouts selected_index key_stats true).2
      = key_diagnostics_reset_stats key_stats ∧
    (handle_get_report_request cfg layouts selected_index
        (handle_get_report_request cfg layouts selected_index key_stats true).2
        false).1
      = zmk_key_diagnostics_Response.diagnostics
          (key_diagnostics_fill_report cfg layouts selected_index
            (handle_get_report_request cfg layouts selected_index
              key_stats true).2) ∧
    (handle_get_report_request cfg layouts selected_index
        (handle_get_report_request cfg layouts selected_index key_stats true).2
        false).2
      = (handle_get_report_request cfg layouts selected_index key_stats true).2 ∧
    ∀ e ∈ (key_diagnostics_fill_report cfg layouts selected_index
        (handle_get_report_request cfg layouts selected_index
          key_stats true).2).keys,
      e.press_count = 0 ∧ e.release_count = 0 ∧ e.chatter_count = 0 ∧
      e.is_pressed = false ∧ e.last_change_ms = 0 := by
  refine ⟨rfl, rfl, rfl, rfl, ?_⟩
  intro e he
  simp only [handle_get_report_request, if_pos, key_diagnostics_fill_report,
    key_diagnostics_reset_stats, List.mem_map, List.mem_range] at he
  obtain ⟨i, _, rfl⟩ := he
  rw [getD_replicate_default]
  obtain ⟨h1, h2, h3, h4, h5, _⟩ :=
    key_diagnostics_apply_stats_fields
      (key_diagnostics_build_gpio_mapping cfg.charlieplex
        (key_diagnostics_refresh_layout_cache layouts selected_index).1
        cfg.gpio_count cfg.ZMK_KEYMAP_LEN)
      cfg.ZMK_KEYMAP_LEN i (default : key_diagnostics_stats)
  exact ⟨h1, h2, h3, h4, h5⟩

/-- C6: a request whose payload fails to decode, and a decoded request of
an unhandled variant, both produce the error response variant and leave
the state untouched — for the key-diagnostics dispatcher (the key-stats
array is unchanged) and for the battery-history dispatcher (the ring
buffer is unchanged) alike. -/
theorem rpc_error_paths_no_mutation (cfg : key_diagnostics_config)
    (layouts : List zmk_physical_layout) (selected_index : Int)
    (key_stats : List key_diagnostics_stats) (tag : Nat)
    (interval : Nat) (st : battery_history_state) :
    key_diagnostics_rpc_handle_request cfg layouts selected_index key_stats none
      = (.error "Failed to decode request", key_stats) ∧
    key_diagnostics_rpc_handle_request cfg layouts selected_index key_stats
        (some (zmk_key_diagnostics_Request.unknown tag))
      = (.error "Failed to process request", key_stats) ∧
    battery_history_rpc_handle_request interval st none
      = (.error "Failed to decode request", st) ∧
    battery_history_rpc_handle_request interval st
        (some (zmk_battery_history_Request.unknown tag))
      = (.error "Failed to process request", st) :=
  ⟨rfl, rfl, rfl, rfl⟩

theorem handle_get_report_reset_after_witness :
    (handle_get_report_request
        { charlieplex := false, gpio_count := 0, ZMK_KEYMAP_LEN := 1,
          CONFIG_ZMK_KEY_DIAGNOSTICS_CHATTER_WINDOW_MS := 50,
          report_keys_capacity := 8, physical_keys_capacity := 8 }
        [] 0
        [{ press_count := 3, release_count := 2, chatter_count := 1,
           last_change_ms := 40, last_state := true }] true).1
      = zmk_key_diagnostics_Response.diagnostics
          (key_diagnostics_fill_report
            { charlieplex := false, gpio_count := 0, ZMK_KEYMAP_LEN := 1,
              CONFIG_ZMK_KEY_DIAGNOSTICS_CHATTER_WINDOW_MS := 50,
              report_keys_capacity := 8, physical_keys_capacity := 8 }
            [] 0
            [{ press_count := 3, release_count := 2, chatter_count := 1,
               last_change_ms := 40, last_state := true }]) :=
  (handle_get_report_reset_after
    { charlieplex := false, gpio_count := 0, ZMK_KEYMAP_LEN := 1,
      CONFIG_ZMK_KEY_DIAGNOSTICS_CHATTER_WINDOW_MS := 50,
      report_keys_capacity := 8, physical_keys_capacity := 8 }
    [] 0
    [{ press_count := 3, release_count := 2, chatter_count := 1,
       last_change_ms := 40, last_state := true }]).1

theorem filter_flatMap_eq {α β : Type} (l : List α) (f : α → List β)
    (q : β → Bool) :
    (l.flatMap f).filter q = l.flatMap fun a => (f a).filter q := by
  induction l with
  | nil => rfl
  | cons a l ih => simp [List.flatMap_cons, List.filter_append, ih]

theorem filter_ne_range_length (n r : Nat) (hr : r < n) :
    ((List.range n).filter (fun c => r != c)).length = n - 1 := by
  have hsymm : ∀ c ∈ List.range n, ((r != c) = (c != r)) := by
    intro c _
    simp only [bne]
    rw [Bool.beq_comm]
  rw [List.filter_congr hsymm,
    ← List.Nodup.erase_eq_filter (List.nodup_range n) r,
    List.length_erase_of_mem (List.mem_range.mpr hr), List.length_range]

theorem charlieplex_pairs_count (n : Nat) :
    ((charlieplexRowColumnPairs n).filter (fun rc => rc.1 != rc.2)).length
      = n * (n - 1) := by
  rw [charlieplexRowColumnPairs, filter_flatMap_eq, List.length_flatMap]
  have h1 : ∀ r ∈ List.range n,
      (List.length ∘ fun row =>
        ((List.range n).map (fun column => (row, column))).filter
          (fun rc => rc.1 != rc.2)) r = n - 1 := by
    intro r hr
    simp only [Function.comp_apply, List.filter_map, List.length_map]
    exact filter_ne_range_length n r (List.mem_range.mp hr)
  rw [List.map_congr_left h1, List.map_const', List.length_range,
    List.sum_const_nat]

theorem build_gpio_fold_invariant (layout : zmk_physical_layout)
    (n keymapLen : Nat) (pairs : List (Nat × Nat)) :
    ∀ acc : List key_gpio_mapping,
      (∀ rc ∈ pairs, rc.1 < n ∧ rc.2 < n) →
      acc.length = keymapLen →
      (∀ p, p < keymapLen →
        gpio_mapping_sound layout n p (acc.getD p default)) →
      (pairs.foldl (key_diagnostics_build_gpio_mapping_step layout keymapLen)
          acc).length = keymapLen ∧
      ∀ p, p < keymapLen →
        gpio_mapping_sound layout n p
          ((pairs.foldl
            (key_diagnostics_build_gpio_mapping_step layout keymapLen)
            acc).getD p default) := by
  induction pairs with
  | nil =>
    intro acc _ hl hg
    exact ⟨hl, hg⟩
  | cons rc pairs ih =>
    intro acc hp hl hg
    rw [List.foldl_cons]
    apply ih
    · intro x hx
      exact hp x (List.mem_cons_of_mem _ hx)
    · unfold key_diagnostics_build_gpio_mapping_step
      split
      · exact hl
      · dsimp only
        split
        · exact hl
        · rw [List.length_set]
          exact hl
    · intro p hplt
      unfold key_diagnostics_build_gpio_mapping_step
      split
      · exact hg p hplt
      · rename_i hne
        dsimp only
        split
        · exact hg p hplt
        · rename_i hrange
          push_neg at hrange
          have h0 : (0 : Int) ≤ layout.matrix_transform rc.1 rc.2 := hrange.1
          have hlt2 : (layout.matrix_transform rc.1 rc.2).toNat < keymapLen := by
            have := hrange.2
            omega
          by_cases hpe : p = (layout.matrix_transform rc.1 rc.2).toNat
          · subst hpe
            rw [getD_set_self (by rw [hl]; exact hlt2)]
            intro _
            have hb := hp rc (List.mem_cons_self _ _)
            exact ⟨hne, hb.1, hb.2, Int.toNat_of_nonneg h0 ▸ rfl⟩
          · rw [getD_set_ne (Ne.symm hpe)]
            exact hg p hplt

/-- C5: the resolver considers exactly the `N * (N - 1)` ordered pairs of
distinct lines out of the `N`-line set (every enumerated pair has both
components inside the line set); the produced mapping has exactly one slot
per logical position; and whenever a slot is valid it records a single
distinct (drive, sense) pair whose matrix transform is exactly that
position — so a position can never carry two different mappings, and a
mapping is recorded only for transform results inside `[0, keymap len)`. -/
theorem build_gpio_mapping_resolution (layout : zmk_physical_layout)
    (gpio_count keymapLen : Nat) :
    ((charlieplexRowColumnPairs gpio_count).filter
        (fun rc => rc.1 != rc.2)).length = gpio_count * (gpio_count - 1) ∧
    (∀ rc ∈ charlieplexRowColumnPairs gpio_count,
      rc.1 < gpio_count ∧ rc.2 < gpio_count) ∧
    (key_diagnostics_build_gpio_mapping true (some layout) gpio_count
        keymapLen).length = keymapLen ∧
    ∀ p, p < keymapLen →
      gpio_mapping_sound layout gpio_count p
        ((key_diagnostics_build_gpio_mapping true (some layout) gpio_count
          keymapLen).getD p default) := by
  have hmem : ∀ rc ∈ charlieplexRowColumnPairs gpio_count,
      rc.1 < gpio_count ∧ rc.2 < gpio_count := by
    intro rc h
    simp only [charlieplexRowColumnPairs, List.mem_flatMap, List.mem_map,
      List.mem_range] at h
    obtain ⟨r, hr, c, hc, rfl⟩ := h
    exact ⟨hr, hc⟩
  have hinit : ∀ p, p < keymapLen →
      gpio_mapping_sound layout gpio_count p
        ((List.replicate keymapLen (default : key_gpio_mapping)).getD p
          default) := by
    intro p _
    rw [getD_replicate_default]
    intro hv
    exact absurd hv (by decide)
  obtain ⟨hlen, hsound⟩ := build_gpio_fold_invariant layout gpio_count
    keymapLen (charlieplexRowColumnPairs gpio_count)
    (List.replicate keymapLen default) hmem (by simp) hinit
  exact ⟨charlieplex_pairs_count gpio_count, hmem, hlen, hsound⟩

theorem build_gpio_mapping_resolution_witness :
    ((charlieplexRowColumnPairs 3).filter
        (fun rc => rc.1 != rc.2)).length = 3 * (3 - 1) :=
  (build_gpio_mapping_resolution
    { display_name := "demo", keys_len := 6,
      matrix_transform := fun row column => ((3 * row + column : Nat) : Int) }
    3 9).1

theorem getD_map_range {α : Type} (f : Nat → α) (n i : Nat) (h : i < n)
    (d : α) : ((List.range n).map f).getD i d = f i := by
  rw [List.getD_eq_getElem?_getD, List.getElem?_map, List.getElem?_range h]
  rfl

/-- C7 counterexample: with keymap length 2, report key capacity 5 and a
valid cached layout whose key count is 1, the report carries exactly one
per-key entry — not `min 2 5 = 2` entries as the claim (smaller of keymap
length and report capacity) demands. -/
theorem key_diagnostics_fill_report_keys_counterexample :
    ((key_diagnostics_fill_report
        { charlieplex := false, gpio_count := 0, ZMK_KEYMAP_LEN := 2,
          CONFIG_ZMK_KEY_DIAGNOSTICS_CHATTER_WINDOW_MS := 50,
          report_keys_capacity := 5, physical_keys_capacity := 5 }
        [{ display_name := "one", keys_len := 1,
           matrix_transform := fun _ _ => (-1 : Int) }]
        0 (List.replicate 2 default)).keys).length = 1 ∧
    (1 : Nat) ≠ min 2 5 :=
  ⟨rfl, by decide⟩

/-- C7 (amended): the report's per-key entries merge the tracker stats
with the GPIO mapping, one entry per position up to the smaller of the
cached layout's key count (the keymap length only when no layout is
cached) and the report's fixed key capacity; exceeding the capacity
truncates the list silently rather than producing an error. -/
theorem key_diagnostics_fill_report_keys (cfg : key_diagnostics_config)
    (layouts : List zmk_physical_layout) (selected_index : Int)
    (key_stats : List key_diagnostics_stats) :
    ((key_diagnostics_refresh_layout_cache layouts selected_index).1 = none →
      (key_diagnostics_fill_report cfg layouts selected_index
          key_stats).keys.length
        = min cfg.ZMK_KEYMAP_LEN cfg.report_keys_capacity) ∧
    (∀ l, (key_diagnostics_refresh_layout_cache layouts selected_index).1
        = some l →
      (key_diagnostics_fill_report cfg layouts selected_index
          key_stats).keys.length
        = min l.keys_len cfg.report_keys_capacity) ∧
    (key_diagnostics_fill_report cfg layouts selected_index
        key_stats).keys.length ≤ cfg.report_keys_capacity ∧
    ∀ i, i < (key_diagnostics_fill_report cfg layouts selected_index
        key_stats).keys.length →
      (key_diagnostics_fill_report cfg layouts selected_index
          key_stats).keys.getD i default
        = key_diagnostics_apply_stats
            (key_diagnostics_build_gpio_mapping cfg.charlieplex
              (key_diagnostics_refresh_layout_cache layouts selected_index).1
              cfg.gpio_count cfg.ZMK_KEYMAP_LEN)
            cfg.ZMK_KEYMAP_LEN i (key_stats.getD i default) := by
  have hlen : (key_diagnostics_fill_report cfg layouts selected_index
      key_stats).keys.length
      = min (match (key_diagnostics_refresh_layout_cache layouts
            selected_index).1 with
          | some l => l.keys_len
          | none => cfg.ZMK_KEYMAP_LEN) cfg.report_keys_capacity := by
    simp only [key_diagnostics_fill_report, List.length_map, List.length_range]
  refine ⟨?_, ?_, ?_, ?_⟩
  · intro hc
    rw [hlen, hc]
  · intro l hc
    rw [hlen, hc]
  · rw [hlen]
    exact Nat.min_le_right _ _
  · intro i hi
    rw [hlen] at hi
    simp only [key_diagnostics_fill_report]
    exact getD_map_range _ _ i hi default

theorem key_diagnostics_fill_report_keys_witness :
    ((key_diagnostics_fill_report
        { charlieplex := false, gpio_count := 0, ZMK_KEYMAP_LEN := 2,
          CONFIG_ZMK_KEY_DIAGNOSTICS_CHATTER_WINDOW_MS := 50,
          report_keys_capacity := 5, physical_keys_capacity := 5 }
        [{ display_name := "one", keys_len := 1,
           matrix_transform := fun _ _ => (-2 : Int) }]
        0 (List.replicate 2 default)).keys).length
      = min 1 5 :=
  (key_diagnostics_fill_report_keys
    { charlieplex := false, gpio_count := 0, ZMK_KEYMAP_LEN := 2,
      CONFIG_ZMK_KEY_DIAGNOSTICS_CHATTER_WINDOW_MS := 50,
      report_keys_capacity := 5, physical_keys_capacity := 5 }
    [{ display_name := "one", keys_len := 1,
       matrix_transform := fun _ _ => (-2 : Int) }]
    0 (List.replicate 2 default)).2.1
    { display_name := "one", keys_len := 1,
      matrix_transform := fun _ _ => (-2 : Int) } rfl
